import Mathlib

/-!
Verification development for the Jeopardy question-curation pipeline
(`workbook.ipynb`).  The Python source is shallowly embedded: pure string
functions become Lean functions over an ASCII model of Python strings, the
external NLTK capabilities (tokenizer, taggers, lemmatizer, WordNet, the
English word list and the stopword set) are abstracted as a record of
function parameters, and the fallible preprocessing step is modelled with
`Except`.
-/

/-! ## ASCII model of the Python string primitives used by the notebook -/

-- Python str.split() separators (ASCII whitespace).
def pyIsSpace (c : Char) : Bool :=
  c == ' ' || c == '\t' || c == '\n' || c == '\r' || c == '\x0b' || c == '\x0c'

-- Python \w character class (ASCII model): alphanumeric or underscore.
def pyIsWordChar (c : Char) : Bool :=
  c.isAlphanum || c == '_'

-- Python str.lower / str.upper (ASCII model).
def lowerAscii (s : String) : String :=
  String.mk (s.toList.map Char.toLower)

def upperAscii (s : String) : String :=
  String.mk (s.toList.map Char.toUpper)

-- Python str.isupper: at least one cased character and no lowercase one.
def pyIsUpper (s : String) : Bool :=
  s.toList.any Char.isAlpha && s.toList.all (fun c => !c.isLower)

-- Python str.isalpha: nonempty and entirely alphabetic.
def pyIsAlpha (s : String) : Bool :=
  !s.toList.isEmpty && s.toList.all Char.isAlpha

-- Python str.split() with no separator: split on whitespace runs, no empties.
def pySplitAux : List Char → List Char → List String
  | [], acc => if acc.isEmpty then [] else [String.mk acc.reverse]
  | c :: rest, acc =>
    if pyIsSpace c then
      if acc.isEmpty then pySplitAux rest []
      else String.mk acc.reverse :: pySplitAux rest []
    else pySplitAux rest (c :: acc)

def pySplit (s : String) : List String :=
  pySplitAux s.toList []

/-! ## strip_html_tags

Model of the source regex substitution that deletes `<.*?>` tag spans and
HTML character-entity references (named, decimal with 1-6 digits, or lower
hex with 1-6 digits, each terminated by a semicolon):
scan left to right; at `<` delete through the first later `>` provided no
newline intervenes (the dot of the pattern excludes newlines); at `&` delete a
character-entity reference; otherwise keep the character and move on.  Fuel is
the length of the input; every step consumes at least one character, so the
fuel never runs out. -/

def isEntNameChar (c : Char) : Bool :=
  ('a' ≤ c && c ≤ 'z') || c.isDigit

def isHexLowerChar (c : Char) : Bool :=
  c.isDigit || ('a' ≤ c && c ≤ 'f')

-- Rest of the input after a successful `<.*?>` match, the `<` already consumed.
def angleTail : List Char → Option (List Char)
  | [] => none
  | c :: rest =>
    if c == '>' then some rest
    else if c == '\n' then none
    else angleTail rest

-- Rest of the input after a successful entity match, the `&` already consumed.
def entityTail (cs : List Char) : Option (List Char) :=
  let (run, rest) := cs.span isEntNameChar
  if !run.isEmpty && rest.head? == some ';' then some rest.tail
  else
    match cs with
    | '#' :: cs2 =>
      let (drun, drest) := cs2.span Char.isDigit
      if !drun.isEmpty && drun.length ≤ 6 && drest.head? == some ';' then some drest.tail
      else
        match cs2 with
        | 'x' :: cs3 =>
          let (hrun, hrest) := cs3.span isHexLowerChar
          if !hrun.isEmpty && hrun.length ≤ 6 && hrest.head? == some ';' then some hrest.tail
          else none
        | _ => none
    | _ => none

def stripScan : Nat → List Char → List Char
  | 0, cs => cs
  | _ + 1, [] => []
  | fuel + 1, c :: rest =>
    if c == '<' then
      match angleTail rest with
      | some rest2 => stripScan fuel rest2
      | none => c :: stripScan fuel rest
    else if c == '&' then
      match entityTail rest with
      | some rest2 => stripScan fuel rest2
      | none => c :: stripScan fuel rest
    else c :: stripScan fuel rest

def strip_html_tags (s : String) : String :=
  String.mk (stripScan s.toList.length s.toList)

/-! ## strip_quotes -/

-- The apostrophe character, written numerically.
def squote : Char := Char.ofNat 39

def dquote : Char := '"'

-- Python: drop a quote appearing at both the start and the end of the text.
def strip_quotes (text : String) : String :=
  let l := text.toList
  if l.head? == some dquote && l.getLast? == some dquote then
    String.mk (l.drop 1).dropLast
  else if l.head? == some squote && l.getLast? == some squote then
    String.mk (l.drop 1).dropLast
  else text

/-! ## External NLP capabilities (NLTK), abstracted -/

structure Nlp where
  wordTokenize : String → List String
  posTag : List String → List (String × String)
  tagIsolated : String → String
  lemmatize : String → String
  hasSynset : String → Bool
  englishVocab : String → Bool
  stopword : String → Bool

/-! ## Roman numeral validator

The source compiles `^(M{0,3})(CM|CD|D?C{0,3})(XC|XL|L?X{0,3})(IX|IV|V?I{0,3})$`
with `re.IGNORECASE` and tests `pattern.match(string)`.  Each group denotes a
finite set of literal alternatives, enumerated below, so the language of the
whole pattern is the set of concatenations of one alternative per group.
`re.IGNORECASE` is modelled by uppercasing the input first; the Python `$`
anchor also matches just before a single trailing newline, which is modelled
explicitly. -/

def ROMAN_THOUSANDS : List String := ["", "M", "MM", "MMM"]

def ROMAN_HUNDREDS : List String :=
  ["CM", "CD", "", "C", "CC", "CCC", "D", "DC", "DCC", "DCCC"]

def ROMAN_TENS : List String :=
  ["XC", "XL", "", "X", "XX", "XXX", "L", "LX", "LXX", "LXXX"]

def ROMAN_UNITS : List String :=
  ["IX", "IV", "", "I", "II", "III", "V", "VI", "VII", "VIII"]

def roman_grammar_match (l : List Char) : Bool :=
  ROMAN_THOUSANDS.any (fun t => ROMAN_HUNDREDS.any (fun h =>
    ROMAN_TENS.any (fun te => ROMAN_UNITS.any (fun u =>
      t.toList ++ h.toList ++ te.toList ++ u.toList == l))))

def is_valid_roman (s : String) : Bool :=
  let u := s.toList.map Char.toUpper
  roman_grammar_match u || (u.getLast? == some '\n' && roman_grammar_match u.dropLast)

/-! ## Roman numeral detector -/

-- Tag a single word in isolation; Penn Treebank noun tags start with NN.
def is_noun (nlp : Nlp) (word : String) : Bool :=
  match (nlp.tagIsolated word).toList with
  | 'N' :: 'N' :: _ => true
  | _ => false

def is_noun_roman_bigram (nlp : Nlp) (bigram : String × String) : Bool :=
  is_noun nlp bigram.1 && is_valid_roman bigram.2

-- Python: first_word.endswith((',', '.', ';', ':')).
def ends_in_punctuation (w : String) : Bool :=
  match w.toList.getLast? with
  | some c => c == ',' || c == '.' || c == ';' || c == ':'
  | none => false

-- Python regex substitution deleting every character that is neither a
-- word character nor whitespace.
def strip_symbols (w : String) : String :=
  String.mk (w.toList.filter (fun c => pyIsWordChar c || pyIsSpace c))

/-- Decision the loop body of `find_valid_roman_numerals` makes for the token
at index `idx`: `some tok` when the token is appended to the result, `none`
when the iteration falls through without appending. -/
def roman_token_decision (nlp : Nlp) (input_tokens : List String) (idx : Nat) :
    Option String :=
  let tok := input_tokens.getD idx ""
  if !pyIsUpper tok then none
  else if tok.length ≤ 2 then
    if idx = 0 then none
    else
      let first_word := input_tokens.getD (idx - 1) ""
      if ends_in_punctuation first_word then none
      else
        let stripped := strip_symbols first_word
        if is_noun_roman_bigram nlp (stripped, tok) then some tok else none
  else if is_valid_roman tok then some tok else none

def find_valid_roman_numerals (nlp : Nlp) (input_text : String) : List String :=
  let input_tokens := pySplit input_text
  (List.range input_tokens.length).filterMap (roman_token_decision nlp input_tokens)

/-! ## Non-English word detector -/

def excluded_pos_tags : List String :=
  ["NNP", "NNPS", "IN", "DT", "WP", "WP$", "WRB", "PRP", "PRP$", "CC", "TO", "MD", "EX", "UH"]

/-- Loop body of `find_non_english_word`: the if/elif chain that may append
the surface word to the accumulated result. -/
def non_english_step (nlp : Nlp) (method : String) (acc : List String)
    (wt : String × String) : List String :=
  let word := wt.1
  let lemma_word := nlp.lemmatize (lowerAscii word)
  let in_en_dict := nlp.englishVocab lemma_word || nlp.englishVocab (lowerAscii lemma_word)
    || nlp.englishVocab (upperAscii lemma_word) || nlp.englishVocab (lowerAscii word)
  if method == "wordnet" && !nlp.hasSynset lemma_word then acc ++ [word]
  else if method == "en_dict" && !in_en_dict then acc ++ [word]
  else if method == "combined" then
    if !(nlp.hasSynset lemma_word || in_en_dict) then acc ++ [word] else acc
  else acc

def find_non_english_word (nlp : Nlp) (input_text : String) (method : String) :
    List String :=
  let tagged_tokens := nlp.posTag (nlp.wordTokenize input_text)
  let filtered_tokens := tagged_tokens.filter (fun p =>
    pyIsAlpha p.1 && !nlp.stopword (lowerAscii p.1) && !excluded_pos_tags.contains p.2)
  filtered_tokens.foldl (non_english_step nlp method) []

/-! ## Proper nouns and corpus word frequency -/

def find_proper_nouns (nlp : Nlp) (text : String) : List String :=
  let tagged := nlp.posTag (nlp.wordTokenize text)
  (tagged.filter (fun p => p.2 == "NNP" || p.2 == "NNPS")).map Prod.fst

def LOW_FREQUENCY_THRESHOLD : Nat := 2

-- generate_word_frequency: join the questions with spaces, lowercase,
-- strip HTML tags, tokenize.
def corpus_text (questions : List String) : String :=
  strip_html_tags (lowerAscii (String.intercalate " " questions))

def corpus_tokens (nlp : Nlp) (questions : List String) : List String :=
  nlp.wordTokenize (corpus_text questions)

-- The frequency distribution: each distinct token with its occurrence count.
-- The source sorts the rows by descending frequency; the order is irrelevant
-- to the derived unusual-word set, so the sorting is omitted.
def generate_word_frequency (nlp : Nlp) (questions : List String) :
    List (String × Nat) :=
  let words := corpus_tokens nlp questions
  words.dedup.map (fun w => (w, words.count w))

-- unusual_words = set of corpus words with frequency at most the threshold.
def unusual_words (nlp : Nlp) (questions : List String) : List String :=
  ((generate_word_frequency nlp questions).filter
    (fun p => decide (p.2 ≤ LOW_FREQUENCY_THRESHOLD))).map Prod.fst

/-! ## Number features and the per-record row -/

def SPELLED_NUMBERS : List String :=
  ["one", "two", "three", "four", "five", "six", "seven", "eight", "nine", "ten",
   "eleven", "twelve", "thirteen", "fourteen", "fifteen", "sixteen", "seventeen",
   "eighteen", "nineteen", "twenty",
   "thirty", "forty", "fifty", "sixty", "seventy", "eighty", "ninety",
   "hundred", "thousand", "million", "billion",
   "first", "second", "third", "fourth", "fifth", "sixth", "seventh", "eighth",
   "ninth", "tenth",
   "eleventh", "twelfth", "thirteenth", "fourteenth", "fifteenth", "sixteenth",
   "seventeenth", "eighteenth", "nineteenth",
   "twentieth", "thirtieth", "fortieth", "fiftieth", "sixtieth", "seventieth",
   "eightieth", "ninetieth",
   "hundredth", "thousandth", "millionth", "billionth",
   "twice", "thrice", "once",
   "single", "double", "triple", "quadruple", "quintuple", "sextuple",
   "septuple", "octuple", "nonuple", "decuple",
   "dozen", "fortnight", "score", "century", "millennium"]

-- The Python set; only membership is ever used, so the list stands in for it.
def SPELLED_NUMBERS_SET : List String := SPELLED_NUMBERS

-- has_spelled_number: the lowercased tokenized word set meets the lexicon.
def has_spelled_number (nlp : Nlp) (x : String) : Bool :=
  (nlp.wordTokenize (lowerAscii x)).any (fun t => SPELLED_NUMBERS_SET.contains t)

-- has_numerical_value: some linguistic token contains a decimal digit.
def has_numerical_value (nlp : Nlp) (x : String) : Bool :=
  (nlp.wordTokenize x).any (fun t => t.toList.any Char.isDigit)

structure Row where
  question : String
  has_spelled_number : Bool
  roman_text : List String
  has_roman_numeral : Bool
  has_numerical_value : Bool
  has_number : Bool
  non_english_words : List String
  has_non_english_word : Bool
  proper_nouns : List String
  has_unusual_proper_noun : Bool

/-- Per-record column assignments of the notebook, for one record whose
cleaned question text is `question`, against a frozen unusual-word set. -/
def curateRow (nlp : Nlp) (unusual : List String) (question : String) : Row :=
  let hsn := has_spelled_number nlp question
  let roman_text := find_valid_roman_numerals nlp question
  let hrn := decide (0 < roman_text.length)
  let hnv := has_numerical_value nlp question
  let ne_words := find_non_english_word nlp question "combined"
  let pns := find_proper_nouns nlp question
  { question := question
    has_spelled_number := hsn
    roman_text := roman_text
    has_roman_numeral := hrn
    has_numerical_value := hnv
    has_number := hsn || hnv || hrn
    non_english_words := ne_words
    has_non_english_word := decide (0 < ne_words.length)
    proper_nouns := pns
    has_unusual_proper_noun := (pns.map lowerAscii).any (fun w => unusual.contains w) }

/-- Whole-dataframe pipeline: the unusual-word set is built once from the full
corpus, then every record is evaluated against it. -/
def curateAll (nlp : Nlp) (questions : List String) : List Row :=
  questions.map (curateRow nlp (unusual_words nlp questions))

/-! ## Preprocessing of raw records

A record value is either a string or a non-string value (a missing text field
is NaN, a float).  `strip_html_tags` applied to a non-string raises TypeError
inside `re.sub`; a pandas `apply` propagates the first exception and aborts
the whole column. -/

inductive PyVal where
  | str : String → PyVal
  | nonText : PyVal
deriving DecidableEq

def strip_html_tags_py : PyVal → Except String String
  | PyVal.str s => Except.ok (strip_html_tags s)
  | PyVal.nonText => Except.error "TypeError: expected string or bytes-like object"

def apply_column (f : PyVal → Except String String) :
    List PyVal → Except String (List String)
  | [] => Except.ok []
  | q :: qs =>
    match f q with
    | Except.error e => Except.error e
    | Except.ok s =>
      match apply_column f qs with
      | Except.error e => Except.error e
      | Except.ok rest => Except.ok (s :: rest)

/-- Pre-cleaning cell: strip HTML tags from every question, then strip the
surrounding quotes.  `strip_quotes` on a string never raises. -/
def preprocessing (questions : List PyVal) : Except String (List String) :=
  match apply_column strip_html_tags_py questions with
  | Except.error e => Except.error e
  | Except.ok cleaned => Except.ok (cleaned.map strip_quotes)

/-! ## Concrete NLP instances used by witnesses -/

-- Whitespace tokenizer; every word tagged NN both in context and isolated.
def demoNlp : Nlp :=
  { wordTokenize := pySplit
    posTag := fun ts => ts.map (fun t => (t, "NN"))
    tagIsolated := fun _ => "NN"
    lemmatize := fun w => w
    hasSynset := fun _ => false
    englishVocab := fun _ => false
    stopword := fun _ => false }

-- Same, but contextual tagging marks every word as a proper noun.
def nnpNlp : Nlp :=
  { wordTokenize := pySplit
    posTag := fun ts => ts.map (fun t => (t, "NNP"))
    tagIsolated := fun _ => "NN"
    lemmatize := fun w => w
    hasSynset := fun _ => false
    englishVocab := fun _ => false
    stopword := fun _ => false }

/-! ## Spec-side characterization for the combined mode (claim C6) -/

/-- Condition, from the claim: the token is alphabetic, its lowercase form is
not a stopword, its contextual tag is not in the excluded closed-class set,
its lowercase lemma has no WordNet sense, and neither the lemma case variants
nor the raw lowercase surface word appear in the English word list. -/
def combined_flag (nlp : Nlp) (p : String × String) : Bool :=
  pyIsAlpha p.1 && !nlp.stopword (lowerAscii p.1) && !excluded_pos_tags.contains p.2 &&
    (let lemma_word := nlp.lemmatize (lowerAscii p.1)
     !nlp.hasSynset lemma_word &&
     !nlp.englishVocab lemma_word && !nlp.englishVocab (lowerAscii lemma_word) &&
     !nlp.englishVocab (upperAscii lemma_word) && !nlp.englishVocab (lowerAscii p.1))


/-! ## Theorems -/

theorem roman_grammar_match_iff (l : List Char) :
    roman_grammar_match l = true ↔
      ∃ t ∈ ROMAN_THOUSANDS, ∃ h ∈ ROMAN_HUNDREDS, ∃ te ∈ ROMAN_TENS,
        ∃ u ∈ ROMAN_UNITS, t.toList ++ h.toList ++ te.toList ++ u.toList = l := by
  simp [roman_grammar_match, List.any_eq_true]

theorem concat_newline_iff (l c : List Char) :
    (l.getLast? = some '\n' ∧ l.dropLast = c) ↔ l = c ++ ['\n'] := by
  constructor
  · rintro ⟨hlast, hdrop⟩
    have hne : l ≠ [] := by
      intro h
      rw [h] at hlast
      simp at hlast
    have := List.dropLast_append_getLast hne
    rw [List.getLast?_eq_getLast l hne] at hlast
    have hl : l.getLast hne = '\n' := by
      injection hlast
    rw [← this, hdrop, hl]
  · rintro rfl
    exact ⟨List.getLast?_concat c, List.dropLast_concat⟩

/-- Claim C1 (amended): `is_valid_roman` returns true iff the uppercased
token, possibly after removing one trailing newline (the Python `$` anchor
also matches there), is a concatenation of one alternative from each group of
the anchored grammar `(M{0,3})(CM|CD|D?C{0,3})(XC|XL|L?X{0,3})(IX|IV|V?I{0,3})`;
in particular XIV and xiv validate, IIII and VX do not, and the empty string
validates, because the grammar matches it vacuously. -/
theorem is_valid_roman_characterization :
    ∀ s : String,
      (is_valid_roman s = true ↔
        ∃ t ∈ ROMAN_THOUSANDS, ∃ h ∈ ROMAN_HUNDREDS, ∃ te ∈ ROMAN_TENS,
          ∃ u ∈ ROMAN_UNITS,
            s.toList.map Char.toUpper = t.toList ++ h.toList ++ te.toList ++ u.toList ∨
            s.toList.map Char.toUpper =
              (t.toList ++ h.toList ++ te.toList ++ u.toList) ++ ['\n']) ∧
      is_valid_roman "XIV" = true ∧ is_valid_roman "xiv" = true ∧
      is_valid_roman "IIII" = false ∧ is_valid_roman "VX" = false ∧
      is_valid_roman "" = true := by
  intro s
  refine ⟨?_, by decide, by decide, by decide, by decide, by decide⟩
  unfold is_valid_roman
  constructor
  · intro hv
    rcases Bool.or_eq_true_iff.mp hv with hm | hnl
    · rcases (roman_grammar_match_iff _).mp hm with ⟨t, ht, h, hh, te, hte, u, hu, hc⟩
      exact ⟨t, ht, h, hh, te, hte, u, hu, Or.inl hc.symm⟩
    · rcases Bool.and_eq_true_iff.mp hnl with ⟨hlast, hm⟩
      rcases (roman_grammar_match_iff _).mp hm with ⟨t, ht, h, hh, te, hte, u, hu, hc⟩
      have := (concat_newline_iff _ _).mp ⟨by simpa using hlast, hc.symm⟩
      exact ⟨t, ht, h, hh, te, hte, u, hu, Or.inr this⟩
  · rintro ⟨t, ht, h, hh, te, hte, u, hu, hc | hc⟩
    · exact Bool.or_eq_true_iff.mpr (Or.inl ((roman_grammar_match_iff _).mpr
        ⟨t, ht, h, hh, te, hte, u, hu, hc.symm⟩))
    · refine Bool.or_eq_true_iff.mpr (Or.inr (Bool.and_eq_true_iff.mpr ⟨?_, ?_⟩))
      · rw [hc]
        simp
      · rw [hc, List.dropLast_concat]
        exact (roman_grammar_match_iff _).mpr ⟨t, ht, h, hh, te, hte, u, hu, rfl⟩

/-- Claim C1 counterexample: the claim asserts `is_valid_roman("") = false`,
but the code returns true on the empty string, since `re.match` succeeds with
an all-empty group match. -/
theorem is_valid_roman_empty : is_valid_roman "" = true := by decide

/-- Claim C2: in every curated row, `has_number` is the disjunction of the
spelled-number, numerical-value and roman-numeral flags, exactly as the
column assignment `has_spelled_number | has_numerical_value | has_roman_numeral`
computes it. -/
theorem has_number_eq_disjunction (nlp : Nlp) (questions : List String) (row : Row)
    (h : row ∈ curateAll nlp questions) :
    row.has_number = (row.has_spelled_number || row.has_numerical_value || row.has_roman_numeral) := by
  rcases List.mem_map.mp h with ⟨q, _, rfl⟩
  rfl

theorem has_number_eq_disjunction_witness :
    (curateRow demoNlp (unusual_words demoNlp ["seven seas"]) "seven seas").has_number =
      ((curateRow demoNlp (unusual_words demoNlp ["seven seas"]) "seven seas").has_spelled_number ||
       (curateRow demoNlp (unusual_words demoNlp ["seven seas"]) "seven seas").has_numerical_value ||
       (curateRow demoNlp (unusual_words demoNlp ["seven seas"]) "seven seas").has_roman_numeral) :=
  has_number_eq_disjunction demoNlp ["seven seas"] _
    (List.mem_map_of_mem _ (List.mem_singleton.mpr rfl))

theorem roman_token_decision_shape (nlp : Nlp) (toks : List String) (idx : Nat)
    (t : String) (h : roman_token_decision nlp toks idx = some t) :
    t = toks.getD idx "" ∧ pyIsUpper t = true := by
  unfold roman_token_decision at h
  cases hup : pyIsUpper (toks.getD idx "") with
  | false =>
    simp only [hup, Bool.not_false, eq_self_iff_true, if_true] at h
    exact absurd h (by simp)
  | true =>
    simp only [hup, Bool.not_true, Bool.false_eq_true, if_false] at h
    split at h
    · split at h
      · exact absurd h (by simp)
      · split at h
        · exact absurd h (by simp)
        · split at h
          · have ht := (Option.some_inj.mp h).symm
            exact ⟨ht, ht ▸ hup⟩
          · exact absurd h (by simp)
    · split at h
      · have ht := (Option.some_inj.mp h).symm
        exact ⟨ht, ht ▸ hup⟩
      · exact absurd h (by simp)

theorem filterMap_range_getD_sublist {α : Type} (l : List α) (d : α)
    (f : Nat → Option α) (hf : ∀ i t, f i = some t → t = l.getD i d) :
    ((List.range l.length).filterMap f).Sublist l := by
  suffices hn : ∀ n, n ≤ l.length → ((List.range n).filterMap f).Sublist (l.take n) by
    simpa using hn l.length le_rfl
  intro n
  induction n with
  | zero => simp
  | succ n ih =>
    intro hle
    have hlt : n < l.length := hle
    rw [List.range_succ, List.filterMap_append, List.take_succ]
    refine (ih (Nat.le_of_lt hlt)).append ?_
    cases hfn : f n with
    | none => simp [hfn]
    | some t =>
      have ht : t = l.getD n d := hf n t hfn
      have : l[n]? = some (l.getD n d) := by
        rw [List.getD_eq_getElem?_getD, List.getElem?_eq_getElem hlt]
        simp
      rw [this]
      simp [hfn, ht]

/-- Claim C9: every element of the output list of the Roman-numeral detector is
drawn from the whitespace-split tokens of the input in order, with
duplicates preserved (a sublist), and every output element is a nonempty
token accepted by the Python `isupper` test; in particular the output never
contains the empty string even though `is_valid_roman` accepts it. -/
theorem find_valid_roman_numerals_invariants (nlp : Nlp) (input_text : String) :
    (find_valid_roman_numerals nlp input_text).Sublist (pySplit input_text) ∧
    ∀ w ∈ find_valid_roman_numerals nlp input_text, w ≠ "" ∧ pyIsUpper w = true := by
  constructor
  · exact filterMap_range_getD_sublist (pySplit input_text) ""
      (roman_token_decision nlp (pySplit input_text))
      (fun i t h => (roman_token_decision_shape nlp (pySplit input_text) i t h).1)
  · intro w hw
    unfold find_valid_roman_numerals at hw
    rcases List.mem_filterMap.mp hw with ⟨i, _, hdec⟩
    have hshape := roman_token_decision_shape nlp (pySplit input_text) i w hdec
    refine ⟨?_, hshape.2⟩
    intro hempty
    rw [hempty] at hshape
    exact absurd hshape.2 (by decide)

theorem find_valid_roman_numerals_invariants_witness :
    (find_valid_roman_numerals demoNlp "Henry VIII ruled").Sublist
      (pySplit "Henry VIII ruled") ∧
    ("VIII" ≠ "" ∧ pyIsUpper "VIII" = true) :=
  ⟨(find_valid_roman_numerals_invariants demoNlp "Henry VIII ruled").1,
   (find_valid_roman_numerals_invariants demoNlp "Henry VIII ruled").2 "VIII" (by decide)⟩

/-- Claim C3: for a whitespace-split token of length at most 2 that the Python
`isupper` test accepts, the detector loop contributes nothing when the token is
first in the text; otherwise it contributes the token exactly when the
preceding token does not end in a comma, period, semicolon or colon, the
preceding token stripped of non-word symbols is tagged in isolation as a noun,
and the token itself passes the Roman-numeral validator.  Whatever the loop
body contributes is an element of the detector output. -/
theorem short_roman_token_rule (nlp : Nlp) (input_text : String) (idx : Nat)
    (toks : List String) (htoks : toks = pySplit input_text)
    (hidx : idx < toks.length)
    (hup : pyIsUpper (toks.getD idx "") = true)
    (hlen : (toks.getD idx "").length ≤ 2) :
    (idx = 0 → roman_token_decision nlp toks idx = none) ∧
    (idx ≠ 0 →
      (roman_token_decision nlp toks idx = some (toks.getD idx "") ↔
        (ends_in_punctuation (toks.getD (idx - 1) "") = false ∧
         is_noun nlp (strip_symbols (toks.getD (idx - 1) "")) = true ∧
         is_valid_roman (toks.getD idx "") = true))) ∧
    (∀ t, roman_token_decision nlp toks idx = some t →
      t ∈ find_valid_roman_numerals nlp input_text) := by
  refine ⟨?_, ?_, ?_⟩
  · intro h0
    subst h0
    unfold roman_token_decision
    simp only [hup, Bool.not_true, Bool.false_eq_true, if_false]
    rw [if_pos hlen]
    simp
  · intro hne
    unfold roman_token_decision
    simp only [hup, Bool.not_true, Bool.false_eq_true, if_false, hlen, if_true, hne,
      is_noun_roman_bigram]
    constructor
    · intro h
      split at h
      · exact absurd h (by simp)
      · split at h
        · rename_i hpunct hbigram
          rcases Bool.and_eq_true_iff.mp hbigram with ⟨hnoun, hvalid⟩
          exact ⟨by simpa using hpunct, hnoun, hvalid⟩
        · exact absurd h (by simp)
    · rintro ⟨hpunct, hnoun, hvalid⟩
      rw [if_neg (by rw [hpunct]; exact Bool.false_ne_true),
        if_pos (Bool.and_eq_true_iff.mpr ⟨hnoun, hvalid⟩)]
  · intro t h
    unfold find_valid_roman_numerals
    subst htoks
    exact List.mem_filterMap.mpr ⟨idx, List.mem_range.mpr hidx, h⟩

theorem short_roman_token_rule_witness :
    roman_token_decision demoNlp (pySplit "Henry VIII Part II") 3 = some "II" ∧
    "II" ∈ find_valid_roman_numerals demoNlp "Henry VIII Part II" := by
  have h := short_roman_token_rule demoNlp "Henry VIII Part II" 3
    (pySplit "Henry VIII Part II") rfl (by decide) (by decide) (by decide)
  have hgd : (pySplit "Henry VIII Part II").getD 3 "" = "II" := by decide
  have hd := (h.2.1 (by decide)).mpr ⟨by decide, by decide, by decide⟩
  rw [hgd] at hd
  exact ⟨hd, h.2.2 "II" hd⟩

/-- Claim C4: the `has_unusual_proper_noun` flag of a curated row is true exactly
when some proper noun extracted from the text of the record has its lowercase form
in the frozen unusual-word set derived from the whole corpus. -/
theorem has_unusual_proper_noun_iff (nlp : Nlp) (questions : List String) (row : Row)
    (h : row ∈ curateAll nlp questions) :
    (row.has_unusual_proper_noun = true ↔
      ∃ w ∈ row.proper_nouns, lowerAscii w ∈ unusual_words nlp questions) := by
  rcases List.mem_map.mp h with ⟨q, _, rfl⟩
  show ((find_proper_nouns nlp q).map lowerAscii).any
      (fun w => (unusual_words nlp questions).contains w) = true ↔ _
  rw [List.any_eq_true]
  constructor
  · rintro ⟨x, hx, hc⟩
    rcases List.mem_map.mp hx with ⟨w, hw, rfl⟩
    exact ⟨w, hw, List.elem_iff.mp hc⟩
  · rintro ⟨w, hw, hmem⟩
    exact ⟨lowerAscii w, List.mem_map_of_mem _ hw, List.elem_iff.mpr hmem⟩

theorem has_unusual_proper_noun_iff_witness :
    (curateRow nnpNlp (unusual_words nnpNlp ["Nessie myth"]) "Nessie myth").has_unusual_proper_noun = true :=
  (has_unusual_proper_noun_iff nnpNlp ["Nessie myth"] _
    (List.mem_map_of_mem _ (List.mem_singleton.mpr rfl))).mpr
    ⟨"Nessie", by decide, by decide⟩

theorem mem_unusual_words_iff (nlp : Nlp) (questions : List String) (w : String) :
    w ∈ unusual_words nlp questions ↔
      w ∈ corpus_tokens nlp questions ∧
        (corpus_tokens nlp questions).count w ≤ LOW_FREQUENCY_THRESHOLD := by
  unfold unusual_words generate_word_frequency
  constructor
  · intro h
    rcases List.mem_map.mp h with ⟨p, hp, rfl⟩
    rcases List.mem_filter.mp hp with ⟨hpmem, hple⟩
    rcases List.mem_map.mp hpmem with ⟨x, hx, rfl⟩
    exact ⟨List.mem_dedup.mp hx, by simpa using hple⟩
  · rintro ⟨hmem, hle⟩
    refine List.mem_map.mpr ⟨(w, (corpus_tokens nlp questions).count w), ?_, rfl⟩
    refine List.mem_filter.mpr ⟨?_, by simpa using hle⟩
    exact List.mem_map_of_mem _ (List.mem_dedup.mpr hmem)

/-- Claim C5: a corpus token is in the unusual-word set exactly when its
occurrence count among the tokens of the lowercased, space-joined (and
HTML-stripped) corpus is at most the threshold (2); hence a word occurring
exactly 3 times is excluded and a word occurring exactly once is included. -/
theorem unusual_words_threshold (nlp : Nlp) (questions : List String) (w : String) :
    (w ∈ corpus_tokens nlp questions →
      (w ∈ unusual_words nlp questions ↔
        (corpus_tokens nlp questions).count w ≤ LOW_FREQUENCY_THRESHOLD)) ∧
    ((corpus_tokens nlp questions).count w = 3 → w ∉ unusual_words nlp questions) ∧
    ((corpus_tokens nlp questions).count w = 1 → w ∈ unusual_words nlp questions) := by
  refine ⟨?_, ?_, ?_⟩
  · intro hmem
    rw [mem_unusual_words_iff]
    exact ⟨fun h => h.2, fun h => ⟨hmem, h⟩⟩
  · intro h3 hmem
    have := ((mem_unusual_words_iff nlp questions w).mp hmem).2
    rw [h3] at this
    exact absurd this (by decide)
  · intro h1
    refine (mem_unusual_words_iff nlp questions w).mpr ⟨?_, by rw [h1]; decide⟩
    exact List.count_pos_iff.mp (by rw [h1]; decide)

theorem unusual_words_threshold_witness :
    "flour" ∈ unusual_words demoNlp ["four four four flour"] ∧
    "four" ∉ unusual_words demoNlp ["four four four flour"] :=
  ⟨(unusual_words_threshold demoNlp ["four four four flour"] "flour").2.2 (by decide),
   (unusual_words_threshold demoNlp ["four four four flour"] "four").2.1 (by decide)⟩

theorem bool_combined_eq (aa s c y v1 v2 v3 v4 : Bool) :
    ((!(y || (v1 || v2 || v3 || v4))) && (aa && !s && !c)) =
      (aa && !s && !c && (!y && !v1 && !v2 && !v3 && !v4)) := by
  revert aa s c y v1 v2 v3 v4
  decide

theorem foldl_non_english_step_combined (nlp : Nlp) :
    ∀ (l : List (String × String)) (acc : List String),
      l.foldl (non_english_step nlp "combined") acc =
        acc ++ (l.filter (fun p =>
          !(nlp.hasSynset (nlp.lemmatize (lowerAscii p.1)) ||
            (nlp.englishVocab (nlp.lemmatize (lowerAscii p.1)) ||
             nlp.englishVocab (lowerAscii (nlp.lemmatize (lowerAscii p.1))) ||
             nlp.englishVocab (upperAscii (nlp.lemmatize (lowerAscii p.1))) ||
             nlp.englishVocab (lowerAscii p.1))))).map Prod.fst := by
  intro l
  induction l with
  | nil => intro acc; simp
  | cons p l ih =>
    intro acc
    rw [List.foldl_cons]
    have h1 : (("combined" : String) == "wordnet") = false := by decide
    have h2 : (("combined" : String) == "en_dict") = false := by decide
    have h3 : (("combined" : String) == "combined") = true := by decide
    have hstep : non_english_step nlp "combined" acc p =
        if (!(nlp.hasSynset (nlp.lemmatize (lowerAscii p.1)) ||
            (nlp.englishVocab (nlp.lemmatize (lowerAscii p.1)) ||
             nlp.englishVocab (lowerAscii (nlp.lemmatize (lowerAscii p.1))) ||
             nlp.englishVocab (upperAscii (nlp.lemmatize (lowerAscii p.1))) ||
             nlp.englishVocab (lowerAscii p.1)))) = true
        then acc ++ [p.1] else acc := by
      unfold non_english_step
      simp only [h1, h2, h3, Bool.false_and, Bool.false_eq_true, if_false, if_true]
    rw [hstep, List.filter_cons]
    split
    · rw [ih, List.map_cons, List.append_assoc, List.singleton_append]
    · rw [ih]

/-- Claim C6: in the combined mode, the non-English detector flags exactly the
surface tokens of the tagged sentence that are alphabetic, not stopwords, not
in the excluded closed-class tag set, whose lowercase lemma has no WordNet
sense, and whose lemma case variants and raw lowercase surface form are all
absent from the English word list, in sentence order with duplicates kept. -/
theorem find_non_english_word_combined (nlp : Nlp) (input_text : String) :
    find_non_english_word nlp input_text "combined" =
      ((nlp.posTag (nlp.wordTokenize input_text)).filter (combined_flag nlp)).map
        Prod.fst := by
  unfold find_non_english_word
  rw [foldl_non_english_step_combined, List.nil_append, List.filter_filter]
  congr 1
  apply List.filter_congr
  intro p _
  show ((!(nlp.hasSynset (nlp.lemmatize (lowerAscii p.1)) ||
      (nlp.englishVocab (nlp.lemmatize (lowerAscii p.1)) ||
       nlp.englishVocab (lowerAscii (nlp.lemmatize (lowerAscii p.1))) ||
       nlp.englishVocab (upperAscii (nlp.lemmatize (lowerAscii p.1))) ||
       nlp.englishVocab (lowerAscii p.1)))) &&
     (pyIsAlpha p.1 && !nlp.stopword (lowerAscii p.1) &&
      !excluded_pos_tags.contains p.2)) = combined_flag nlp p
  simp only [combined_flag]
  exact bool_combined_eq _ _ _ _ _ _ _ _

/-- Claim C10: for any method string other than wordnet, en_dict and combined,
the non-English detector appends nothing in any loop iteration and returns the
empty list, silently, rather than raising or falling back to a default. -/
theorem find_non_english_word_unknown_method (nlp : Nlp) (input_text : String)
    (method : String) (h1 : method ≠ "wordnet") (h2 : method ≠ "en_dict")
    (h3 : method ≠ "combined") :
    find_non_english_word nlp input_text method = [] := by
  unfold find_non_english_word
  have hb1 : (method == "wordnet") = false := beq_eq_false_iff_ne.mpr h1
  have hb2 : (method == "en_dict") = false := beq_eq_false_iff_ne.mpr h2
  have hb3 : (method == "combined") = false := beq_eq_false_iff_ne.mpr h3
  have hfold : ∀ (l : List (String × String)) (acc : List String),
      l.foldl (non_english_step nlp method) acc = acc := by
    intro l
    induction l with
    | nil => intro acc; rfl
    | cons p l ih =>
      intro acc
      rw [List.foldl_cons]
      have hstep : non_english_step nlp method acc p = acc := by
        unfold non_english_step
        simp only [hb1, hb2, hb3, Bool.false_and, Bool.false_eq_true, if_false]
      rw [hstep, ih]
  exact hfold _ []

theorem find_non_english_word_unknown_method_witness :
    find_non_english_word demoNlp "hola mundo" "badmode" = [] :=
  find_non_english_word_unknown_method demoNlp "hola mundo" "badmode"
    (by decide) (by decide) (by decide)

theorem apply_column_error_iff (qs : List PyVal) :
    (∃ e, apply_column strip_html_tags_py qs = Except.error e) ↔ PyVal.nonText ∈ qs := by
  induction qs with
  | nil => simp [apply_column]
  | cons q qs ih =>
    cases q with
    | nonText =>
      simp [apply_column, strip_html_tags_py]
    | str s =>
      constructor
      · rintro ⟨e, he⟩
        simp only [apply_column, strip_html_tags_py] at he
        refine List.mem_cons_of_mem _ (ih.mp ?_)
        cases hq : apply_column strip_html_tags_py qs with
        | error e2 => exact ⟨e2, rfl⟩
        | ok rest => rw [hq] at he; exact absurd he (by simp)
      · intro hmem
        rcases List.mem_cons.mp hmem with hq | hq
        · exact absurd hq (by simp)
        · rcases ih.mpr hq with ⟨e, he⟩
          refine ⟨e, ?_⟩
          simp only [apply_column, strip_html_tags_py, he]

/-- Claim C7 counterexample: a batch containing a record with a non-string
text field does not continue with that record treated as empty text; the
HTML-stripping step raises a TypeError which aborts the whole column, and the
following record is never processed. -/
theorem preprocessing_nontext_aborts :
    preprocessing [PyVal.nonText, PyVal.str "three"] =
      Except.error "TypeError: expected string or bytes-like object" := rfl

/-- Claim C7 (amended): preprocessing fails with an exception exactly when
the text field of some record is missing or not text; there is no empty-text
fallback, and one malformed record aborts the whole batch. -/
theorem preprocessing_error_iff (questions : List PyVal) :
    (∃ e, preprocessing questions = Except.error e) ↔ PyVal.nonText ∈ questions := by
  rw [← apply_column_error_iff]
  unfold preprocessing
  cases hq : apply_column strip_html_tags_py questions with
  | error e => simp
  | ok cleaned => simp

/-- Claim C8: `has_spelled_number` is true exactly when some token of the
linguistically tokenized, lowercased text belongs to the spelled-number
lexicon; membership is exact (no stemming), and inputs differing only in case
yield the identical flag, as the two concrete inputs illustrate. -/
theorem has_spelled_number_spec (nlp : Nlp) (x : String) :
    (has_spelled_number nlp x = true ↔
      ∃ t ∈ nlp.wordTokenize (lowerAscii x), t ∈ SPELLED_NUMBERS_SET) ∧
    has_spelled_number nlp "Seventy-SIX trombones" =
      has_spelled_number nlp "seventy-six TROMBONES" := by
  constructor
  · unfold has_spelled_number
    rw [List.any_eq_true]
    constructor
    · rintro ⟨t, ht, hc⟩
      exact ⟨t, ht, List.elem_iff.mp hc⟩
    · rintro ⟨t, ht, hmem⟩
      exact ⟨t, ht, List.elem_iff.mpr hmem⟩
  · have h : lowerAscii "Seventy-SIX trombones" = lowerAscii "seventy-six TROMBONES" := by
      decide
    unfold has_spelled_number
    rw [h]
